import Mathlib

/-!
Verification of the OnCore procedure-alternatives notification pipeline:
a shallow embedding of `scripts/oncore_proc_alt_alert.py` (hourly job),
`scripts/oncore_proc_alt_weekly_reminder.py` (weekly reminder job) and the
relevant parts of `scripts/utils.py`.

Timestamps are modelled as `Int` values: minutes since an arbitrary epoch for
the hourly job's window arithmetic (all the script's durations are whole
minutes: `SAFETY_LAG_MIN`, `OVERLAP_MIN`, `LOOKBACK_HOURS * 60`), whole
seconds for dedupe-key timestamps, and abstract ticks for the weekly job's
cadence arithmetic (where only additions and comparisons occur).
-/

/-- Result of reading a persisted JSON file: the file may be absent, or
unreadable or unparseable (`corrupt`), or parsed to a payload value. -/
inductive FileRead (α : Type) where
  | missing : FileRead α
  | corrupt : FileRead α
  | content : α → FileRead α

/-- `load_state` (alert script, lines 82–86): `json.loads` of the state file,
with the empty dict returned on any read or parse failure.  The payload is
the optional `last_max_timestamp` field of the parsed dict; `content none`
models a well-formed dict lacking that field. -/
def load_state : FileRead (Option Int) → Option Int
  | FileRead.missing => none
  | FileRead.corrupt => none
  | FileRead.content v => v

/-- `load_sent_keys` (alert script, lines 92–98): parse `sent_keys.json` and
take its `keys` list; any read or parse failure yields the empty set. -/
def load_sent_keys : FileRead (List String) → List String
  | FileRead.missing => []
  | FileRead.corrupt => []
  | FileRead.content ks => ks

/-- `save_sent_keys` (alert script, lines 100–105).  `keys_list = list(keys)`
enumerates the Python `set` in its iteration order (an artifact of the
strings' randomized hashes, unrelated to insertion order); if the list is
longer than `max_keep` the code keeps `keys_list[-max_keep:]`.  Python's
`lst[-0:]` is the whole list, hence the `maxKeep = 0` case. -/
def save_sent_keys (iterKeys : List String) (maxKeep : Nat) : List String :=
  if iterKeys.length > maxKeep then
    if maxKeep = 0 then iterKeys else iterKeys.drop (iterKeys.length - maxKeep)
  else iterKeys

/-- Alert script, lines 219–223: `until = now - SAFETY_LAG_MIN` followed by the
guard `if until >= now: until = now - 1` (minutes). -/
def untilOf (now lag : Int) : Int :=
  if now - lag ≥ now then now - 1 else now - lag

/-- Alert script, lines 228–231: the persisted watermark when present, else the
cold-start default `until - timedelta(hours=LOOKBACK_HOURS)`. -/
def sinceRawOf (untilT : Int) (wm : Option Int) (lookbackHours : Int) : Int :=
  match wm with
  | some w => w
  | none => untilT - 60 * lookbackHours

/-- Alert script, line 233: `since = since_raw - timedelta(minutes=OVERLAP_MIN)`. -/
def sinceOf (untilT : Int) (wm : Option Int) (lookbackHours overlapMin : Int) : Int :=
  sinceRawOf untilT wm lookbackHours - overlapMin

/-- Maximum of the `modified_date` column of the query result (alert script,
lines 313–319); `none` for an empty frame. -/
def maxDate : List Int → Option Int
  | [] => none
  | t :: ts => some (ts.foldl max t)

/-- Watermark stored at the end of a successful run (alert script, lines
242–247 for the empty result, 312–323 otherwise): an empty result advances
the watermark to `until`; otherwise `new_mark = min(max_seen, until)`. -/
def runWatermark (untilT : Int) (rows : List Int) : Int :=
  match maxDate rows with
  | none => untilT
  | some m => min m untilT

/-- One `(visit_id, modified_user_email, modified_date)` group of the hourly
job's result frame.  `tsSec` is the modified timestamp in whole seconds and
`tsFrac` its sub-second remainder: `groupby` distinguishes the full
timestamp while the dedupe key keeps only whole seconds
(`isoformat(timespec='seconds')`, line 264). -/
structure GroupKey where
  visit : String
  email : String
  tsSec : Int
  tsFrac : Nat
deriving DecidableEq, Repr

/-- Alert script, line 264:
`f"{visit_id}|{modifier or 'dev'}|{mod_dt.isoformat(timespec='seconds')}"`. -/
def keyOf (g : GroupKey) : String :=
  g.visit ++ "|" ++ (if g.email = "" then "dev" else g.email) ++ "|" ++ toString g.tsSec

/-- Accumulated effect of the send loop: the groups emailed so far and the
in-memory sent-key set (a list with append-if-new discipline, so membership
agrees with the Python set). -/
structure SendPhase where
  emails : List GroupKey
  keys : List String
deriving DecidableEq, Repr

/-- One iteration of the send loop (alert script, lines 256–296): skip a group
with an empty recipient unless in dev mode; skip a group whose dedupe key is
already in the sent-key set; otherwise send the email and add the key. -/
def stepGroup (dm : Bool) (acc : SendPhase) (g : GroupKey) : SendPhase :=
  if g.email = "" ∧ dm = false then acc
  else if keyOf g ∈ acc.keys then acc
  else ⟨acc.emails ++ [g], acc.keys ++ [keyOf g]⟩

/-- The whole grouped send loop of one run (alert script, lines 251–296),
starting from the loaded sent-key set `sent0`. -/
def processGroups (dm : Bool) (sent0 : List String) (gs : List GroupKey) : SendPhase :=
  gs.foldl (stepGroup dm) ⟨[], sent0⟩

/-- The first guard of the loop as a predicate: a group survives it when its
recipient is non-empty or the run is in dev mode (alert script, lines 258–260). -/
def keepG (dm : Bool) (g : GroupKey) : Bool :=
  decide ¬(g.email = "" ∧ dm = false)

/-- Recipient argument passed to `send_email` for a group (alert script, lines
279 and 284): in dev mode `modifier or "dev-placeholder"`, in prod the
modifier itself (an empty modifier never reaches the prod send). -/
def toEmailOf (dm : Bool) (g : GroupKey) : String :=
  if dm then (if g.email = "" then "dev-placeholder" else g.email) else g.email

/-- The list comprehension `[e.strip() for e in s.split(c) if e.strip()]` used
by `send_email` (utils.py, lines 227 and 230). -/
def splitRecipients (s : String) (c : Char) : List String :=
  ((s.split (· = c)).map String.trim).filter (fun x => !(x == ""))

/-- Recipient routing of `send_email` (utils.py, lines 221–232): with
`ENVIRONMENT=dev` the `to_email` argument is ignored and `DEV_EMAIL` is
used; with `prod` the `to_email` argument is split on semicolons; any other
environment raises (`none`). -/
def send_email_to (environment to_email dev_email : String) : Option (List String) :=
  if environment = "dev" then some (splitRecipients dev_email ',')
  else if environment = "prod" then some (splitRecipients to_email ';')
  else none

/-- Outcome of one invocation of the hourly job with respect to the run lock
(alert script, lines 204–215, 347–352). -/
structure LockRun where
  earlyExit : Bool
  proceeded : Bool
  lockWritten : Bool
  lockAfter : Option Int
  raised : Bool
  sentEmail : Bool
deriving DecidableEq, Repr

/-- The hourly job's staleness threshold `timedelta(hours=2)` in minutes
(alert script, line 210). -/
def lockStaleMinutes : Int := 120

/-- Lock discipline of the hourly job.  Lines 208–212: a lock whose mtime is
strictly younger than the threshold causes a plain `return` before the
`try` block — nothing is queried or sent, the lock is left as it is and no
exception is raised.  Otherwise the lock is (over)written with the current
time (line 215) and the body runs inside `try ... finally: unlink`
(lines 217, 347–352), so the lock is removed whether the body raises or not.
`bodyRaises` and `bodySends` stand for the body's behaviour. -/
def runWithLock (now : Int) (lockMtime : Option Int) (bodyRaises bodySends : Bool) : LockRun :=
  match lockMtime with
  | some m =>
    if now - m < lockStaleMinutes then
      { earlyExit := true, proceeded := false, lockWritten := false,
        lockAfter := some m, raised := false, sentEmail := false }
    else
      { earlyExit := false, proceeded := true, lockWritten := true,
        lockAfter := none, raised := bodyRaises, sentEmail := bodySends }
  | none =>
      { earlyExit := false, proceeded := true, lockWritten := true,
        lockAfter := none, raised := bodyRaises, sentEmail := bodySends }

/-- Site of the first failure, if any, during the end-of-run persistence
sequence of the hourly job (alert script, lines 298–323). -/
inductive PersistFault where
  | fault_free
  | atKeys
  | atCsv
  | atState
deriving DecidableEq, Repr

/-- Which persisted files reflect the run's updates after the persistence
sequence, and whether it raised. -/
structure PersistOutcome where
  keysWritten : Bool
  stateWritten : Bool
  raised : Bool
deriving DecidableEq, Repr

/-- The post-send persistence sequence of the hourly job, in source order
(alert script): `save_sent_keys` at line 299, the daily-CSV append at lines
302–308, `save_state` with the new watermark at lines 312–323.  A failure at
one step prevents every later step; there is no rollback of earlier steps. -/
def persistPhase : PersistFault → PersistOutcome
  | PersistFault.fault_free => ⟨true, true, false⟩
  | PersistFault.atKeys => ⟨false, false, true⟩
  | PersistFault.atCsv => ⟨true, false, true⟩
  | PersistFault.atState => ⟨true, false, true⟩

/-- Audit event types recorded for the procedure-alternatives pair
(weekly script, lines 84–85 and 105). -/
inductive EventType where
  | INITIAL_ALERT
  | WEEKLY_REMINDER
deriving DecidableEq, Repr

/-- One audit-table row for a fixed `(visit_id, modified_user_email)` pair
(environment and job-code filters already applied, as in the WHERE clause
of `_audit_history_sql`). -/
structure AuditEvent where
  event_type : EventType
  sent_at : Int
deriving DecidableEq, Repr

/-- One accumulation step of the SQL aggregate
`MIN(CASE WHEN EVENT_TYPE = 'INITIAL_ALERT' THEN SENT_AT END)`
(weekly script, line 84): a non-initial event leaves the accumulator
unchanged, an initial event folds its timestamp in with `min`. -/
def fiStep (acc : Option Int) (e : AuditEvent) : Option Int :=
  if e.event_type = EventType.INITIAL_ALERT then
    some (match acc with | none => e.sent_at | some x => min x e.sent_at)
  else acc

/-- `MIN(CASE WHEN EVENT_TYPE = 'INITIAL_ALERT' THEN SENT_AT END)` over one
pair's audit rows (weekly script, line 84). -/
def firstInitial (evs : List AuditEvent) : Option Int :=
  evs.foldl fiStep none

/-- One accumulation step of the SQL aggregate
`MAX(CASE WHEN EVENT_TYPE = 'WEEKLY_REMINDER' THEN SENT_AT END)`
(weekly script, line 85). -/
def lwStep (acc : Option Int) (e : AuditEvent) : Option Int :=
  if e.event_type = EventType.WEEKLY_REMINDER then
    some (match acc with | none => e.sent_at | some x => max x e.sent_at)
  else acc

/-- `MAX(CASE WHEN EVENT_TYPE = 'WEEKLY_REMINDER' THEN SENT_AT END)` over one
pair's audit rows (weekly script, line 85). -/
def lastWeekly (evs : List AuditEvent) : Option Int :=
  evs.foldl lwStep none

/-- Aggregated history for one pair, as produced by `_audit_history_sql`
(weekly script, lines 79–90) and looked up in `history_by_key`: the GROUP BY
yields a row only when the pair has at least one audit event, and each
aggregate is NULL (`none`) when no event of its type exists. -/
structure PairHistory where
  first_initial_sent_at : Option Int
  last_weekly_sent_at : Option Int
deriving DecidableEq, Repr

/-- History lookup for a pair: `none` models a pair absent from
`history_by_key` (no audit rows at all). -/
def audit_history (evs : List AuditEvent) : Option PairHistory :=
  match evs with
  | [] => none
  | _ :: _ => some ⟨firstInitial evs, lastWeekly evs⟩

/-- Per-group decision of the weekly reminder loop (weekly script, lines
239–263): skip an empty recipient unless in dev mode; skip when the pair has
no history row or a NULL `first_initial_sent_at`; skip while
`now < first_initial + interval`; skip while a prior reminder exists and
`now < last_weekly + interval`; otherwise send. -/
def weeklySendDecision (dm : Bool) (email : String) (hist : Option PairHistory)
    (nowTs intervalTicks : Int) : Bool :=
  if email = "" ∧ dm = false then false
  else
    match hist with
    | none => false
    | some h =>
      match h.first_initial_sent_at with
      | none => false
      | some fi =>
        if nowTs < fi + intervalTicks then false
        else
          match h.last_weekly_sent_at with
          | none => true
          | some lw => if nowTs < lw + intervalTicks then false else true

/-- `send_failure_alert` (utils.py, lines 363–449), with its collaborators as
fallible actions: reading the tail of today's log file (inner `try` at lines
383–396, failure swallowed by `pass`), the `send_email` call at line 437,
and the logger call of the outer `except` branch (lines 443–449, failures
swallowed).  The returned `Bool` records whether the alert email went out;
the function itself never produces an `error`. -/
def send_failure_alert {E : Type} (logTail : Except E String)
    (emailSend : Except E Unit) (loggerCall : Except E Unit) : Except E Bool :=
  let _tail : String :=
    match logTail with
    | Except.ok s => s
    | Except.error _ => ""
  match emailSend with
  | Except.ok _ => Except.ok true
  | Except.error _ =>
    match loggerCall with
    | Except.ok _ => Except.ok false
    | Except.error _ => Except.ok false

/-- `try: body finally: raise` inside `except Exception as e:` (alert script,
lines 327–346): the bare `raise` of the `finally` block re-raises the
original `e`, whatever the body did (a body-raised secondary exception is
displaced by the re-raise). -/
def reraiseFinally {E α : Type} (e : E) (body : Except E α) : Except E α :=
  match body with
  | Except.ok _ => Except.error e
  | Except.error _ => Except.error e

/-- The whole except-branch of the hourly job (alert script, lines 327–346):
`logger.exception`, then `send_failure_alert`, then the guaranteed re-raise
of the original exception. -/
def hourlyExceptPath {E : Type} (e : E) (logExc : Except E Unit)
    (logTail : Except E String) (emailSend : Except E Unit)
    (loggerCall : Except E Unit) : Except E Unit :=
  reraiseFinally e
    (Except.bind logExc (fun _ =>
      Except.bind (send_failure_alert logTail emailSend loggerCall)
        (fun _ => Except.ok ())))

theorem processGroups_run (dm : Bool) (gs : List GroupKey) :
    ∀ (e0 : List GroupKey) (k0 : List String),
      (gs.map keyOf).Nodup → (∀ g ∈ gs, keyOf g ∉ k0) →
      gs.foldl (stepGroup dm) ⟨e0, k0⟩ =
        ⟨e0 ++ gs.filter (keepG dm), k0 ++ (gs.filter (keepG dm)).map keyOf⟩ := by
  induction gs with
  | nil => intro e0 k0 _ _; simp
  | cons g gs ih =>
    intro e0 k0 hnd hk
    rw [List.map_cons, List.nodup_cons] at hnd
    have hkg : keyOf g ∉ k0 := hk g (List.mem_cons_self g gs)
    rw [List.foldl_cons]
    by_cases hc : g.email = "" ∧ dm = false
    · have hkeep : keepG dm g = false := by
        simp only [keepG, decide_eq_false_iff_not, not_not]; exact hc
      have hstep : stepGroup dm ⟨e0, k0⟩ g = ⟨e0, k0⟩ := by
        simp [stepGroup, hc]
      rw [hstep, ih e0 k0 hnd.2 (fun g2 h2 => hk g2 (List.mem_cons_of_mem _ h2))]
      simp [List.filter_cons, hkeep]
    · have hkeep : keepG dm g = true := by
        simp only [keepG, decide_eq_true_eq]; exact hc
      have hstep : stepGroup dm ⟨e0, k0⟩ g = ⟨e0 ++ [g], k0 ++ [keyOf g]⟩ := by
        simp [stepGroup, hc, hkg]
      have hk2 : ∀ g2 ∈ gs, keyOf g2 ∉ k0 ++ [keyOf g] := by
        intro g2 h2
        simp only [List.mem_append, List.mem_singleton]
        push_neg
        refine ⟨hk g2 (List.mem_cons_of_mem _ h2), fun heq => ?_⟩
        exact hnd.1 (heq ▸ List.mem_map_of_mem keyOf h2)
      rw [hstep, ih (e0 ++ [g]) (k0 ++ [keyOf g]) hnd.2 hk2]
      simp [List.filter_cons, hkeep, List.append_assoc]

theorem processGroups_skip (dm : Bool) (gs : List GroupKey) :
    ∀ acc : SendPhase, (∀ g ∈ gs, keepG dm g = true → keyOf g ∈ acc.keys) →
      gs.foldl (stepGroup dm) acc = acc := by
  induction gs with
  | nil => intro acc _; rfl
  | cons g gs ih =>
    intro acc h
    rw [List.foldl_cons]
    have hstep : stepGroup dm acc g = acc := by
      by_cases hc : g.email = "" ∧ dm = false
      · simp [stepGroup, hc]
      · have hkeep : keepG dm g = true := by
          simp only [keepG, decide_eq_true_eq]; exact hc
        have hmem : keyOf g ∈ acc.keys := h g (List.mem_cons_self g gs) hkeep
        simp [stepGroup, hc, hmem]
    rw [hstep]
    exact ih acc (fun g2 h2 => h g2 (List.mem_cons_of_mem _ h2))

/-- Claim C3, counterexample: with the valid configuration
`SAFETY_LAG_MIN = 10`, `OVERLAP_MIN = 3`, `LOOKBACK_HOURS = 1`, a persisted
watermark of 2000 minutes and an invocation at `now = 1000` minutes (the
watermark lies in the future of the run, e.g. after a clock rollback or a
hand-edited state file, which the code never guards against), the computed
window has `since = 1997 ≥ 990 = until`, refuting the claim that
`since < until` holds for ANY persisted watermark. -/
theorem window_since_lt_until_cex :
    (0 : Int) < 10 ∧ (0 : Int) < 3 ∧ (0 : Int) < 1
    ∧ untilOf 1000 10 = 990
    ∧ sinceOf (untilOf 1000 10) (some 2000) 1 3 = 1997
    ∧ ¬(sinceOf (untilOf 1000 10) (some 2000) 1 3 < untilOf 1000 10) := by decide

/-- Claim C3, amended: for every invocation time and every integer
`safety_lag`, the computed `until` is strictly less than `now` (the line-222
guard enforces this even for a non-positive lag); and `since < until` holds
provided the persisted watermark `w` satisfies `w - overlap < until` (true in
particular for a watermark written by an earlier successful run under a
monotone clock), or, when no watermark exists, provided
`60 * lookback_hours + overlap > 0`.  Without that proviso `since < until`
can fail (see the counterexample). -/
theorem window_bounds (now lag lookbackHours overlapMin : Int) (wm : Option Int)
    (hw : match wm with
      | some w => w - overlapMin < untilOf now lag
      | none => 0 < 60 * lookbackHours + overlapMin) :
    untilOf now lag < now
    ∧ sinceOf (untilOf now lag) wm lookbackHours overlapMin < untilOf now lag := by
  constructor
  · unfold untilOf; split <;> omega
  · cases wm with
    | some w =>
      have hw2 : w - overlapMin < untilOf now lag := hw
      simpa [sinceOf, sinceRawOf] using hw2
    | none =>
      have hw2 : 0 < 60 * lookbackHours + overlapMin := hw
      simp only [sinceOf, sinceRawOf]
      omega

/-- Witness for `window_bounds` at `now = 1000`, `lag = 10`, `lookback = 1`,
`overlap = 3`, watermark 500. -/
theorem window_bounds_w :
    ((500 : Int) - 3 < untilOf 1000 10)
    ∧ (untilOf 1000 10 < 1000
       ∧ sinceOf (untilOf 1000 10) (some 500) 1 3 < untilOf 1000 10) :=
  ⟨by decide, window_bounds 1000 10 1 3 (some 500) (by decide)⟩

/-- Claim C5, counterexample: the Python `set` holding the sent keys does not
record insertion order, and `list(keys)` enumerates it in hash order.  With
keys inserted in the order `k1, k2, k3`, an iteration order `[k3, k1, k2]`
(a permutation the set is free to produce, since string hashes are
randomized) and a cap of 2, `save_sent_keys` retains `[k1, k2]` — evicting
`k3`, the most recently inserted key, and keeping the oldest — refuting
"the keys evicted are the oldest in insertion order". -/
theorem sent_keys_eviction_order_cex :
    List.Perm ["k3", "k1", "k2"] ["k1", "k2", "k3"]
    ∧ save_sent_keys ["k3", "k1", "k2"] 2 = ["k1", "k2"] := by
  constructor
  · decide
  · decide

/-- Claim C5, amended: for any positive `max_keep` (the only call site uses the
default 20000), `save_sent_keys` never writes more than `max_keep` keys, and
when the set exceeds the cap the keys retained are the last `max_keep`
entries of the set's iteration order — which is arbitrary, not insertion
order, so which keys are evicted is not determined by insertion age. -/
theorem save_sent_keys_cap (iterKeys : List String) (maxKeep : Nat) (h : 0 < maxKeep) :
    (save_sent_keys iterKeys maxKeep).length ≤ maxKeep
    ∧ (maxKeep < iterKeys.length →
        save_sent_keys iterKeys maxKeep = iterKeys.drop (iterKeys.length - maxKeep)) := by
  by_cases hgt : iterKeys.length > maxKeep
  · have hs : save_sent_keys iterKeys maxKeep = iterKeys.drop (iterKeys.length - maxKeep) := by
      unfold save_sent_keys
      rw [if_pos hgt, if_neg (by omega)]
    refine ⟨?_, fun _ => hs⟩
    rw [hs, List.length_drop]
    omega
  · have hs : save_sent_keys iterKeys maxKeep = iterKeys := by
      unfold save_sent_keys; rw [if_neg hgt]
    exact ⟨by rw [hs]; omega, fun hlt => absurd hlt hgt⟩

/-- Witness for `save_sent_keys_cap` on a three-key set with cap 2. -/
theorem save_sent_keys_cap_w :
    0 < 2
    ∧ ((save_sent_keys ["a", "b", "c"] 2).length ≤ 2
       ∧ (2 < (["a", "b", "c"] : List String).length →
           save_sent_keys ["a", "b", "c"] 2 =
             (["a", "b", "c"] : List String).drop ((["a", "b", "c"] : List String).length - 2))) :=
  ⟨by decide, save_sent_keys_cap ["a", "b", "c"] 2 (by decide)⟩

/-- Claim C6 (confirmed): a lock file strictly younger than the 2-hour
threshold makes the run return successfully without querying or sending,
leaving the lock untouched; a lock at least 2 hours old is overwritten and
the run proceeds; and every run that wrote the lock removes it on exit,
whether the body completed or raised. -/
theorem lock_contract (now m : Int) (mt : Option Int) (bodyRaises bodySends : Bool) :
    (now - m < lockStaleMinutes →
      runWithLock now (some m) bodyRaises bodySends =
        { earlyExit := true, proceeded := false, lockWritten := false,
          lockAfter := some m, raised := false, sentEmail := false })
    ∧ (lockStaleMinutes ≤ now - m →
      runWithLock now (some m) bodyRaises bodySends =
        { earlyExit := false, proceeded := true, lockWritten := true,
          lockAfter := none, raised := bodyRaises, sentEmail := bodySends })
    ∧ ((runWithLock now mt bodyRaises bodySends).lockWritten = true →
      (runWithLock now mt bodyRaises bodySends).lockAfter = none) := by
  refine ⟨fun h => ?_, fun h => ?_, fun h => ?_⟩
  · simp [runWithLock, h]
  · simp [runWithLock, not_lt.mpr h]
  · cases mt with
    | none => simp [runWithLock]
    | some m2 =>
      by_cases h2 : now - m2 < lockStaleMinutes
      · simp [runWithLock, h2] at h
      · simp [runWithLock, h2]

/-- Witness for `lock_contract`: a 50-minute-old lock aborts the run, a
500-minute-old lock is replaced and the run proceeds. -/
theorem lock_contract_w :
    runWithLock 1000 (some 950) true true =
      { earlyExit := true, proceeded := false, lockWritten := false,
        lockAfter := some 950, raised := false, sentEmail := false }
    ∧ runWithLock 1000 (some 500) true true =
      { earlyExit := false, proceeded := true, lockWritten := true,
        lockAfter := none, raised := true, sentEmail := true } :=
  ⟨(lock_contract 1000 950 (some 950) true true).1 (by decide),
   (lock_contract 1000 500 (some 500) true true).2.1 (by decide)⟩

/-- Claim C7, counterexample: a failure at the daily-CSV append (lines
302–308), which runs after `save_sent_keys` (line 299) and before
`save_state` (lines 312–323), leaves the sent-keys file updated and the
state file stale — the two persisted artifacts are NOT updated atomically. -/
theorem persist_not_atomic_cex :
    (persistPhase PersistFault.atCsv).keysWritten = true
    ∧ (persistPhase PersistFault.atCsv).stateWritten = false
    ∧ (persistPhase PersistFault.atCsv).raised = true := by decide

/-- Claim C7, amended: the two writes are sequential, not atomic, with the
sent-keys file written first; consequently any run whose state file reflects
the update also updated the sent-keys file and raised no exception in the
persistence phase, while the converse can fail. -/
theorem persist_keys_first (f : PersistFault)
    (h : (persistPhase f).stateWritten = true) :
    (persistPhase f).keysWritten = true ∧ (persistPhase f).raised = false := by
  cases f <;> simp_all [persistPhase]

/-- Witness for `persist_keys_first` on the fault-free run. -/
theorem persist_keys_first_w :
    (persistPhase PersistFault.fault_free).stateWritten = true
    ∧ ((persistPhase PersistFault.fault_free).keysWritten = true
       ∧ (persistPhase PersistFault.fault_free).raised = false) :=
  ⟨rfl, persist_keys_first PersistFault.fault_free rfl⟩

/-- Claim C8 (confirmed): `send_failure_alert` returns normally for every
combination of collaborator outcomes (log-tail read, alert send, logger
call), and the hourly job's except-branch always re-raises the original
exception after the alert attempt, so a secondary alerting failure never
masks or replaces the original error. -/
theorem failure_alert_never_raises {E : Type} (e : E)
    (logExc loggerCall emailSend : Except E Unit) (logTail : Except E String) :
    (∃ b : Bool, send_failure_alert logTail emailSend loggerCall = Except.ok b)
    ∧ hourlyExceptPath e logExc logTail emailSend loggerCall = Except.error e := by
  constructor
  · cases logTail <;> cases emailSend <;> cases loggerCall <;>
      first
        | exact ⟨true, rfl⟩
        | exact ⟨false, rfl⟩
  · cases logExc <;> cases logTail <;> cases emailSend <;> cases loggerCall <;> rfl

/-- Claim C9 (confirmed): a group whose `modified_user_email` is empty is
skipped in production mode (the loop continues with nothing sent and
nothing added), while in dev mode it is processed and sent, with
`send_email` called on the `dev-placeholder` recipient and the email layer
routing it to the `DEV_EMAIL` inbox. -/
theorem empty_recipient_handling (acc : SendPhase) (g : GroupKey) (dev_email : String)
    (he : g.email = "") :
    stepGroup false acc g = acc
    ∧ (keyOf g ∉ acc.keys →
        stepGroup true acc g = ⟨acc.emails ++ [g], acc.keys ++ [keyOf g]⟩)
    ∧ toEmailOf true g = "dev-placeholder"
    ∧ send_email_to "dev" (toEmailOf true g) dev_email
        = some (splitRecipients dev_email ',') := by
  refine ⟨?_, fun hk => ?_, ?_, ?_⟩
  · simp [stepGroup, he]
  · simp [stepGroup, he, hk]
  · simp [toEmailOf, he]
  · simp [send_email_to]

/-- Witness for `empty_recipient_handling` on a concrete empty-recipient
group. -/
theorem empty_recipient_handling_w :
    (({ visit := "7", email := "", tsSec := 0, tsFrac := 0 } : GroupKey).email = "")
    ∧ stepGroup false ⟨[], []⟩ { visit := "7", email := "", tsSec := 0, tsFrac := 0 } = ⟨[], []⟩ :=
  ⟨rfl,
   (empty_recipient_handling ⟨[], []⟩
      { visit := "7", email := "", tsSec := 0, tsFrac := 0 } "dev@example.org" rfl).1⟩

theorem foldl_max_mem (ts : List Int) :
    ∀ t : Int, ts.foldl max t = t ∨ ts.foldl max t ∈ ts := by
  induction ts with
  | nil => intro t; left; rfl
  | cons u us ih =>
    intro t
    rw [List.foldl_cons]
    rcases ih (max t u) with h | h
    · rw [h]
      rcases max_choice t u with h2 | h2
      · left; exact h2
      · right; rw [h2]; exact List.mem_cons_self u us
    · right; exact List.mem_cons_of_mem u h

theorem maxDate_mem (rows : List Int) (m : Int) (h : maxDate rows = some m) : m ∈ rows := by
  cases rows with
  | nil => exact absurd h (by simp [maxDate])
  | cons t ts =>
    have hm : ts.foldl max t = m := by simpa [maxDate] using h
    subst hm
    rcases foldl_max_mem ts t with h2 | h2
    · rw [h2]; exact List.mem_cons_self t ts
    · exact List.mem_cons_of_mem t h2

/-- Claim C2, counterexample: previous watermark 600, `OVERLAP_MIN = 3`,
`until = 660`; the run's query window is `(597, 660]` and the (non-empty)
result holds a single row at 598 — a legitimate row, re-included by the
overlap margin (e.g. the other rows of the previous window have since left
the unresolved view).  The stored watermark becomes
`min(598, 660) = 598 < 600`: the watermark regresses, refuting
"watermark after a successful run ≥ watermark before it". -/
theorem watermark_monotonic_cex :
    sinceOf 660 (some 600) 1 3 = 597
    ∧ ((597 : Int) < 598 ∧ (598 : Int) ≤ 660)
    ∧ runWatermark 660 [598] = 598
    ∧ ¬((600 : Int) ≤ runWatermark 660 [598]) := by decide

/-- Claim C2, amended: for a run over rows inside the window
`(w - overlap, until]` computed from previous watermark `w`, the stored
watermark is always ≤ `until`, equals `until` for an empty result and
`min(max_seen, until)` otherwise — but it is only boundedly monotone: it
always stays strictly above `w - overlap`, yet can regress below `w` itself
(by less than the overlap margin) when every row of the window lies in the
overlap region. -/
theorem watermark_bounds (untilT lookbackHours overlapMin w : Int) (rows : List Int)
    (hwin : ∀ t ∈ rows, sinceOf untilT (some w) lookbackHours overlapMin < t ∧ t ≤ untilT)
    (hlt : sinceOf untilT (some w) lookbackHours overlapMin < untilT) :
    runWatermark untilT rows ≤ untilT
    ∧ w - overlapMin < runWatermark untilT rows
    ∧ (rows = [] → runWatermark untilT rows = untilT)
    ∧ (∀ m, maxDate rows = some m → runWatermark untilT rows = min m untilT) := by
  have hsince : sinceOf untilT (some w) lookbackHours overlapMin = w - overlapMin := rfl
  rw [hsince] at hwin hlt
  cases hrows : maxDate rows with
  | none =>
    have hnil : rows = [] := by
      cases rows with
      | nil => rfl
      | cons t ts => exact absurd hrows (by simp [maxDate])
    subst hnil
    have hrun : runWatermark untilT [] = untilT := rfl
    exact ⟨le_of_eq hrun, by rw [hrun]; exact hlt, fun _ => hrun,
      fun m hm => absurd hm (by simp [maxDate])⟩
  | some mx =>
    have hmem := maxDate_mem rows mx hrows
    have hb := hwin mx hmem
    have hrun : runWatermark untilT rows = min mx untilT := by
      simp [runWatermark, hrows]
    refine ⟨?_, ?_, ?_, ?_⟩
    · rw [hrun]; exact min_le_right _ _
    · rw [hrun]; exact lt_min hb.1 hlt
    · intro hnil; subst hnil; exact absurd hrows (by simp [maxDate])
    · intro m hm
      injection hm with h
      rw [hrun, h]

/-- Witness for `watermark_bounds`: previous watermark 600, overlap 3,
`until = 660`, rows at 598 and 650. -/
theorem watermark_bounds_w :
    (∀ t ∈ ([598, 650] : List Int), sinceOf 660 (some 600) 1 3 < t ∧ t ≤ 660)
    ∧ sinceOf 660 (some 600) 1 3 < 660
    ∧ (runWatermark 660 [598, 650] ≤ 660
       ∧ (600 : Int) - 3 < runWatermark 660 [598, 650]
       ∧ (([598, 650] : List Int) = [] → runWatermark 660 [598, 650] = 660)
       ∧ ∀ m, maxDate [598, 650] = some m → runWatermark 660 [598, 650] = min m 660) :=
  ⟨by decide, by decide, watermark_bounds 660 1 3 600 [598, 650] (by decide) (by decide)⟩

/-- Claim C10 (confirmed): a missing, unreadable or unparseable state file
loads as the empty dict, so the run falls back to the cold-start window
`until - lookback`; a missing or corrupt sent-keys file loads as the empty
set, so no group of that run is filtered as a duplicate — every group that
passes the recipient guard is emailed. -/
theorem load_failures_treated_as_absent (untilT lookbackHours : Int) (gs : List GroupKey)
    (hnd : (gs.map keyOf).Nodup) :
    load_state FileRead.missing = none
    ∧ load_state FileRead.corrupt = none
    ∧ sinceRawOf untilT (load_state FileRead.corrupt) lookbackHours
        = untilT - 60 * lookbackHours
    ∧ load_sent_keys FileRead.missing = []
    ∧ load_sent_keys FileRead.corrupt = []
    ∧ (processGroups false (load_sent_keys FileRead.corrupt) gs).emails
        = gs.filter (keepG false) := by
  refine ⟨rfl, rfl, rfl, rfl, rfl, ?_⟩
  show (gs.foldl (stepGroup false) ⟨[], []⟩).emails = gs.filter (keepG false)
  rw [processGroups_run false gs [] [] hnd (fun g _ => List.not_mem_nil (keyOf g))]
  simp

/-- Witness for `load_failures_treated_as_absent` on a two-group run where the
second group has an empty recipient. -/
theorem load_failures_treated_as_absent_w :
    (([{ visit := "100", email := "a@x.org", tsSec := 540, tsFrac := 0 },
       { visit := "101", email := "", tsSec := 541, tsFrac := 0 }] : List GroupKey).map keyOf).Nodup
    ∧ (processGroups false (load_sent_keys FileRead.corrupt)
        [{ visit := "100", email := "a@x.org", tsSec := 540, tsFrac := 0 },
         { visit := "101", email := "", tsSec := 541, tsFrac := 0 }]).emails
      = ([{ visit := "100", email := "a@x.org", tsSec := 540, tsFrac := 0 },
          { visit := "101", email := "", tsSec := 541, tsFrac := 0 }] : List GroupKey).filter
          (keepG false) :=
  ⟨by decide,
   (load_failures_treated_as_absent 660 1
      [{ visit := "100", email := "a@x.org", tsSec := 540, tsFrac := 0 },
       { visit := "101", email := "", tsSec := 541, tsFrac := 0 }] (by decide)).2.2.2.2.2⟩

/-- Claim C1 (confirmed): run the hourly send loop twice over the same groups
(the overlap-margin scenario), with pairwise distinct dedupe keys, none of
them already in the persisted Sent-Key Set, and the resulting key set within
the 20000-key cap (so `save_sent_keys` persists it unchanged).  Then the
first run adds every surviving group's key to the persisted set, the second
run — loading any enumeration of the saved set — sends nothing, and every
group with a non-empty recipient receives exactly one email across the two
runs. -/
theorem hourly_two_runs_send_once (dm : Bool) (S0 sent1 : List String) (gs : List GroupKey)
    (hnd : (gs.map keyOf).Nodup)
    (hfresh : ∀ g ∈ gs, keyOf g ∉ S0)
    (hcap : (processGroups dm S0 gs).keys.length ≤ 20000)
    (hload : ∀ s : String, s ∈ sent1 ↔ s ∈ save_sent_keys (processGroups dm S0 gs).keys 20000) :
    (∀ g ∈ gs, keepG dm g = true → keyOf g ∈ (processGroups dm S0 gs).keys)
    ∧ (processGroups dm sent1 gs).emails = []
    ∧ (∀ g ∈ gs, g.email ≠ "" →
        ((processGroups dm S0 gs).emails ++ (processGroups dm sent1 gs).emails).count g = 1) := by
  have hrun : processGroups dm S0 gs =
      ⟨gs.filter (keepG dm), S0 ++ (gs.filter (keepG dm)).map keyOf⟩ := by
    have h := processGroups_run dm gs [] S0 hnd hfresh
    simpa [processGroups] using h
  have hsave : save_sent_keys (processGroups dm S0 gs).keys 20000
      = (processGroups dm S0 gs).keys := by
    unfold save_sent_keys
    rw [if_neg (by omega)]
  have hmemk : ∀ g ∈ gs, keepG dm g = true → keyOf g ∈ (processGroups dm S0 gs).keys := by
    intro g hg hkeep
    rw [hrun]
    exact List.mem_append_right _ (List.mem_map_of_mem keyOf (List.mem_filter.mpr ⟨hg, hkeep⟩))
  have hskip : processGroups dm sent1 gs = ⟨[], sent1⟩ := by
    unfold processGroups
    apply processGroups_skip
    intro g hg hkeep
    show keyOf g ∈ sent1
    rw [hload (keyOf g), hsave]
    exact hmemk g hg hkeep
  refine ⟨hmemk, by rw [hskip], ?_⟩
  intro g hg hne
  rw [hskip, hrun]
  simp only [List.append_nil]
  have hgnd : gs.Nodup := List.Nodup.of_map keyOf hnd
  have hfnd : (gs.filter (keepG dm)).Nodup := hgnd.filter _
  have hkeep : keepG dm g = true := by
    simp only [keepG, decide_eq_true_eq]
    exact fun h2 => hne h2.1
  have hmem : g ∈ gs.filter (keepG dm) := List.mem_filter.mpr ⟨hg, hkeep⟩
  exact List.count_eq_one_of_mem hfnd hmem

/-- Witness for `hourly_two_runs_send_once` on one concrete fresh group. -/
theorem hourly_two_runs_send_once_w :
    (([{ visit := "100", email := "a@x.org", tsSec := 540, tsFrac := 0 }] : List GroupKey).map
        keyOf).Nodup
    ∧ ((processGroups false
          (save_sent_keys
            (processGroups false []
              [{ visit := "100", email := "a@x.org", tsSec := 540, tsFrac := 0 }]).keys 20000)
          [{ visit := "100", email := "a@x.org", tsSec := 540, tsFrac := 0 }]).emails = []
       ∧ ∀ g ∈ ([{ visit := "100", email := "a@x.org", tsSec := 540, tsFrac := 0 }] : List GroupKey),
          g.email ≠ "" →
          ((processGroups false []
              [{ visit := "100", email := "a@x.org", tsSec := 540, tsFrac := 0 }]).emails
            ++ (processGroups false
                  (save_sent_keys
                    (processGroups false []
                      [{ visit := "100", email := "a@x.org", tsSec := 540, tsFrac := 0 }]).keys
                    20000)
                  [{ visit := "100", email := "a@x.org", tsSec := 540, tsFrac := 0 }]).emails).count
            g = 1) :=
  ⟨by decide,
   (hourly_two_runs_send_once false []
      (save_sent_keys
        (processGroups false []
          [{ visit := "100", email := "a@x.org", tsSec := 540, tsFrac := 0 }]).keys 20000)
      [{ visit := "100", email := "a@x.org", tsSec := 540, tsFrac := 0 }]
      (by decide) (by decide) (by decide) (fun s => Iff.rfl)).2⟩

theorem foldl_fiStep_const (evs : List AuditEvent) :
    ∀ acc : Option Int, (∀ e ∈ evs, e.event_type ≠ EventType.INITIAL_ALERT) →
      evs.foldl fiStep acc = acc := by
  induction evs with
  | nil => intro acc _; rfl
  | cons e es ih =>
    intro acc h
    rw [List.foldl_cons]
    have hstep : fiStep acc e = acc := by
      unfold fiStep
      rw [if_neg (h e (List.mem_cons_self e es))]
    rw [hstep]
    exact ih acc (fun e2 h2 => h e2 (List.mem_cons_of_mem e h2))

theorem firstInitial_of_no_initial (evs : List AuditEvent)
    (h : ∀ e ∈ evs, e.event_type ≠ EventType.INITIAL_ALERT) :
    firstInitial evs = none :=
  foldl_fiStep_const evs none h

theorem weeklySendDecision_some_iff (dm : Bool) (email : String) (fiOpt lwOpt : Option Int)
    (nowTs itv : Int) :
    weeklySendDecision dm email (some ⟨fiOpt, lwOpt⟩) nowTs itv = true ↔
      ((email ≠ "" ∨ dm = true)
        ∧ ∃ fi, fiOpt = some fi ∧ fi + itv ≤ nowTs
            ∧ ∀ lw, lwOpt = some lw → lw + itv ≤ nowTs) := by
  by_cases hg : email = "" ∧ dm = false
  · have hL : weeklySendDecision dm email (some ⟨fiOpt, lwOpt⟩) nowTs itv = false := by
      unfold weeklySendDecision
      rw [if_pos hg]
    rw [hL]
    constructor
    · intro h; cases h
    · rintro ⟨hgx, -⟩
      rcases hgx with h | h
      · exact absurd hg.1 h
      · rw [hg.2] at h; cases h
  · have hg2 : email ≠ "" ∨ dm = true := by
      by_cases he : email = ""
      · cases hdm : dm
        · exact absurd ⟨he, hdm⟩ hg
        · exact Or.inr rfl
      · exact Or.inl he
    cases fiOpt with
    | none =>
      show (if email = "" ∧ dm = false then false else false) = true ↔ _
      rw [if_neg hg]
      constructor
      · intro h; cases h
      · rintro ⟨-, fi, hfi, -⟩
        cases hfi
    | some fi =>
      cases lwOpt with
      | none =>
        show (if email = "" ∧ dm = false then false
              else if nowTs < fi + itv then false else true) = true ↔ _
        rw [if_neg hg]
        by_cases hfi : nowTs < fi + itv
        · rw [if_pos hfi]
          constructor
          · intro h; cases h
          · rintro ⟨-, fi2, hfi2, hle, -⟩
            injection hfi2 with hh
            subst hh
            omega
        · rw [if_neg hfi]
          constructor
          · intro _
            exact ⟨hg2, fi, rfl, by omega, fun lw hlw => by cases hlw⟩
          · intro _; rfl
      | some lw =>
        show (if email = "" ∧ dm = false then false
              else if nowTs < fi + itv then false
              else if nowTs < lw + itv then false else true) = true ↔ _
        rw [if_neg hg]
        by_cases hfi : nowTs < fi + itv
        · rw [if_pos hfi]
          constructor
          · intro h; cases h
          · rintro ⟨-, fi2, hfi2, hle, -⟩
            injection hfi2 with hh
            subst hh
            omega
        · rw [if_neg hfi]
          by_cases hlw : nowTs < lw + itv
          · rw [if_pos hlw]
            constructor
            · intro h; cases h
            · rintro ⟨-, fi2, hfi2, -, hall⟩
              have h2 := hall lw rfl
              omega
          · rw [if_neg hlw]
            constructor
            · intro _
              refine ⟨hg2, fi, rfl, by omega, fun lw2 hlw2 => ?_⟩
              injection hlw2 with hh
              subst hh
              omega
            · intro _; rfl

/-- Claim C4 (confirmed): a pair appearing in the weekly job's unresolved-rows
result (with a non-empty recipient, or in dev mode) is sent a reminder if
and only if its audit history has a non-NULL `first_initial_sent_at` (an
`INITIAL_ALERT` event exists), `now ≥ first_initial_sent_at + interval`
(eligibility turns true exactly at the boundary instant), and either no
`WEEKLY_REMINDER` event exists or `now ≥ last_weekly_sent_at + interval`;
and a pair with no `INITIAL_ALERT` event is never sent a reminder,
regardless of elapsed time. -/
theorem weekly_reminder_decision (dm : Bool) (email : String) (evs : List AuditEvent)
    (nowTs itv : Int) :
    (weeklySendDecision dm email (audit_history evs) nowTs itv = true ↔
      ((email ≠ "" ∨ dm = true)
        ∧ ∃ fi, firstInitial evs = some fi ∧ fi + itv ≤ nowTs
            ∧ ∀ lw, lastWeekly evs = some lw → lw + itv ≤ nowTs))
    ∧ ((∀ e ∈ evs, e.event_type ≠ EventType.INITIAL_ALERT) →
        weeklySendDecision dm email (audit_history evs) nowTs itv = false) := by
  constructor
  · cases evs with
    | nil =>
      have hL : weeklySendDecision dm email (audit_history []) nowTs itv = false := by
        unfold weeklySendDecision audit_history
        split <;> rfl
      rw [hL]
      constructor
      · intro h; cases h
      · rintro ⟨-, fi, hfi, -⟩
        simp [firstInitial] at hfi
    | cons e es =>
      have hah : audit_history (e :: es)
          = some ⟨firstInitial (e :: es), lastWeekly (e :: es)⟩ := rfl
      rw [hah]
      exact weeklySendDecision_some_iff dm email (firstInitial (e :: es))
        (lastWeekly (e :: es)) nowTs itv
  · intro hno
    cases evs with
    | nil =>
      unfold weeklySendDecision audit_history
      split <;> rfl
    | cons e es =>
      have hah : audit_history (e :: es)
          = some ⟨firstInitial (e :: es), lastWeekly (e :: es)⟩ := rfl
      rw [hah, firstInitial_of_no_initial (e :: es) hno]
      unfold weeklySendDecision
      split <;> rfl

/-- Witness for `weekly_reminder_decision`: a pair whose only audit event is a
`WEEKLY_REMINDER` (no `INITIAL_ALERT`) is not sent, however much time has
elapsed. -/
theorem weekly_reminder_decision_w :
    (∀ e ∈ ([{ event_type := EventType.WEEKLY_REMINDER, sent_at := 100 }] : List AuditEvent),
        e.event_type ≠ EventType.INITIAL_ALERT)
    ∧ weeklySendDecision true "a@x.org"
        (audit_history [{ event_type := EventType.WEEKLY_REMINDER, sent_at := 100 }]) 1000000 7
      = false :=
  ⟨by decide,
   (weekly_reminder_decision true "a@x.org"
      [{ event_type := EventType.WEEKLY_REMINDER, sent_at := 100 }] 1000000 7).2 (by decide)⟩
